import Mathlib

/-!
Verification development for the maelfosso/key-value-store repository
(a raft-replicated key-value store).

Shallow embedding conventions:
* Go strings and byte slices are `List Nat`, each element a byte below 256.
* The Go `map[string]string` is a canonically sorted association list
  (sorted strictly by key in byte-lexicographic order), the standard
  canonical representation of a finite map.
* File IO, the flock file lock and raft plumbing are modelled as pure
  state passing: `loadData` yields the current mapping, `saveData`
  replaces it; lock contention and IO faults are environment failures
  outside the scope of the claims and are not modelled.
* The Go standard library JSON codec (an external collaborator, not part
  of the repository) is modelled on the fragment the repository
  exercises: serialization of string-to-string objects in canonical
  order without escapes, and the exact inverse parser, which rejects
  every byte stream outside the canonical image.  All strings the
  repository passes to the serializer are base64 outputs, which need no
  escaping; which canonical entry order the serializer uses does not
  affect any property proved here.
* base64.URLEncoding (Go standard library) is modelled faithfully:
  the URL-safe alphabet with padding.
-/

namespace KVStore

/-- Byte strings: the model of Go `string` and `[]byte`. -/
abbrev Str := List Nat

/-- Raw byte buffers (same representation, kept for readability). -/
abbrev Bytes := List Nat

/-! ### base64.URLEncoding (Go standard library model) -/

/-- Sextet to ASCII code of the URL-safe base64 alphabet
`A-Z a-z 0-9 - _`. -/
def b64chr (n : Nat) : Nat :=
  if n < 26 then 65 + n
  else if n < 52 then 97 + (n - 26)
  else if n < 62 then 48 + (n - 52)
  else if n = 62 then 45
  else 95

/-- ASCII code back to sextet; `none` outside the alphabet. -/
def b64inv (c : Nat) : Option Nat :=
  if 65 ≤ c ∧ c ≤ 90 then some (c - 65)
  else if 97 ≤ c ∧ c ≤ 122 then some (c - 97 + 26)
  else if 48 ≤ c ∧ c ≤ 57 then some (c - 48 + 52)
  else if c = 45 then some 62
  else if c = 95 then some 63
  else none

/-- `base64.URLEncoding.EncodeToString`: three bytes become four alphabet
characters; a final chunk of one or two bytes is padded with `=` (61). -/
def b64encode : List Nat → List Nat
  | [] => []
  | [b0] => [b64chr (b0 / 4), b64chr (b0 % 4 * 16), 61, 61]
  | [b0, b1] => [b64chr (b0 / 4), b64chr (b0 % 4 * 16 + b1 / 16),
                 b64chr (b1 % 16 * 4), 61]
  | b0 :: b1 :: b2 :: rest =>
      b64chr (b0 / 4) :: b64chr (b0 % 4 * 16 + b1 / 16) ::
      b64chr (b1 % 16 * 4 + b2 / 64) :: b64chr (b2 % 64) :: b64encode rest

/-- `base64.URLEncoding.DecodeString`: groups of four characters, padding
only in the final group, `none` on any malformed input. -/
def b64decode : List Nat → Option (List Nat)
  | [] => some []
  | c0 :: c1 :: c2 :: c3 :: rest =>
      match b64inv c0, b64inv c1 with
      | some s0, some s1 =>
          if c2 = 61 then
            if c3 = 61 ∧ rest = [] then some [s0 * 4 + s1 / 16] else none
          else if c3 = 61 then
            match b64inv c2 with
            | some s2 =>
                if rest = [] then
                  some [s0 * 4 + s1 / 16, s1 % 16 * 16 + s2 / 4]
                else none
            | none => none
          else
            match b64inv c2, b64inv c3, b64decode rest with
            | some s2, some s3, some tail =>
                some ((s0 * 4 + s1 / 16) :: (s1 % 16 * 16 + s2 / 4) ::
                      (s2 % 4 * 64 + s3) :: tail)
            | _, _, _ => none
      | _, _ => none
  | _ => none

theorem b64inv_b64chr : ∀ n < 64, b64inv (b64chr n) = some n := by decide

theorem b64chr_ne_61 : ∀ n < 64, b64chr n ≠ 61 := by decide

/-- Decoding inverts encoding on genuine byte strings. -/
theorem b64decode_b64encode :
    ∀ s : List Nat, (∀ c ∈ s, c < 256) → b64decode (b64encode s) = some s
  | [] => fun _ => rfl
  | [b0] => by
      intro h
      have hb0 : b0 < 256 := h b0 (by simp)
      have h1 : b0 / 4 < 64 := by omega
      have h2 : b0 % 4 * 16 < 64 := by omega
      simp only [b64encode, b64decode, b64inv_b64chr _ h1, b64inv_b64chr _ h2]
      simp; omega
  | [b0, b1] => by
      intro h
      have hb0 : b0 < 256 := h b0 (by simp)
      have hb1 : b1 < 256 := h b1 (by simp)
      have h1 : b0 / 4 < 64 := by omega
      have h2 : b0 % 4 * 16 + b1 / 16 < 64 := by omega
      have h3 : b1 % 16 * 4 < 64 := by omega
      simp only [b64encode, b64decode, b64inv_b64chr _ h1, b64inv_b64chr _ h2,
                 b64inv_b64chr _ h3]
      rw [if_neg (b64chr_ne_61 _ h3)]
      simp; omega
  | b0 :: b1 :: b2 :: rest => by
      intro h
      have hb0 : b0 < 256 := h b0 (by simp)
      have hb1 : b1 < 256 := h b1 (by simp)
      have hb2 : b2 < 256 := h b2 (by simp)
      have h1 : b0 / 4 < 64 := by omega
      have h2 : b0 % 4 * 16 + b1 / 16 < 64 := by omega
      have h3 : b1 % 16 * 4 + b2 / 64 < 64 := by omega
      have h4 : b2 % 64 < 64 := by omega
      have ih : b64decode (b64encode rest) = some rest :=
        b64decode_b64encode rest (fun c hc => h c (by simp [hc]))
      simp only [b64encode, b64decode, b64inv_b64chr _ h1, b64inv_b64chr _ h2,
                 b64inv_b64chr _ h3, b64inv_b64chr _ h4]
      rw [if_neg (b64chr_ne_61 _ h3), if_neg (b64chr_ne_61 _ h4), ih]
      simp; omega

/-! ### Go standard library JSON codec model (string-to-string objects)

`encoding/json` is an external collaborator.  The repository only
marshals string-to-string maps (and small structs of string fields)
whose strings are base64 outputs or fixed ASCII field names, none of
which require escaping.  The model below serializes such an object in
canonical form (ASCII 123 is the opening brace, 125 the closing brace,
34 the double quote, 58 the colon, 44 the comma) and parses exactly
that canonical form back, rejecting all other inputs. -/

/-- Characters the canonical serializer emits verbatim: printable ASCII
that Go would not escape (not the quote 34, backslash 92, nor the
HTML-escaped 60, 62, 38). -/
def plainChar (c : Nat) : Bool :=
  decide (32 ≤ c) && decide (c < 127) && (c != 34) && (c != 92) &&
  (c != 60) && (c != 62) && (c != 38)

/-- A string every character of which is emitted verbatim. -/
def plainStr (s : Str) : Bool := s.all plainChar

/-- A JSON string literal: quote, contents, quote. -/
def printStr (s : Str) : Bytes := 34 :: (s ++ [34])

/-- One object member: string key, colon, string value. -/
def printEntry (kv : Str × Str) : Bytes := printStr kv.1 ++ 58 :: printStr kv.2

/-- Comma-separated object members. -/
def printEntries : List (Str × Str) → Bytes
  | [] => []
  | [kv] => printEntry kv
  | kv :: rest => printEntry kv ++ 44 :: printEntries rest

/-- `json.Marshal` of a string-to-string object: the members wrapped in
braces; `none` if a string would need escaping (never the case for the
base64 strings the repository serializes). -/
def jsonMarshalMap (l : List (Str × Str)) : Option Bytes :=
  if l.all (fun kv => plainStr kv.1 && plainStr kv.2) then
    some (123 :: (printEntries l ++ [125]))
  else none

/-- Reads string-literal contents up to the closing quote; rejects
escape sequences (the canonical form contains none). -/
def takeStr : List Nat → Option (Str × List Nat)
  | [] => none
  | c :: rest =>
      if c = 34 then some ([], rest)
      else if c = 92 then none
      else
        match takeStr rest with
        | none => none
        | some (s, r) => some (c :: s, r)

/-- Parses one or more comma-separated members followed by the closing
brace, fuel-bounded (one unit of fuel per member). -/
def parseEntriesF : Nat → List Nat → Option (List (Str × Str) × List Nat)
  | 0, _ => none
  | _ + 1, [] => none
  | fuel + 1, c :: rest =>
      if c = 34 then
        match takeStr rest with
        | none => none
        | some (k, r1) =>
            match r1 with
            | 58 :: 34 :: r2 =>
                match takeStr r2 with
                | none => none
                | some (v, r3) =>
                    match r3 with
                    | 44 :: r4 =>
                        match parseEntriesF fuel r4 with
                        | none => none
                        | some (es, r) => some ((k, v) :: es, r)
                    | 125 :: r4 => some ([(k, v)], r4)
                    | _ => none
            | _ => none
      else none

/-- `json.Unmarshal` into a string-to-string object: accepts exactly the
canonical serialization, returning the members in printed order. -/
def jsonUnmarshalMap (b : Bytes) : Option (List (Str × Str)) :=
  match b with
  | 123 :: rest =>
      if rest = [125] then some []
      else
        match parseEntriesF rest.length rest with
        | some (es, []) => some es
        | _ => none
  | _ => none

/-! ### Canonical finite-map model of the Go `map[string]string` -/

/-- Byte-lexicographic strict order on byte strings. -/
def strLt : Str → Str → Bool
  | [], [] => false
  | [], _ :: _ => true
  | _ :: _, [] => false
  | a :: s, b :: t => if a < b then true else if b < a then false else strLt s t

/-- The key-value mapping: a canonically sorted association list. -/
abbrev Mapping := List (Str × Str)

/-- Ordering of two map entries by key. -/
def ltKey (a b : Str × Str) : Prop := strLt a.1 b.1 = true

instance : DecidableRel ltKey := fun a b => by
  unfold ltKey
  infer_instance

/-- Go map read `data[key]`, as an option. -/
def mapLookup (k : Str) : Mapping → Option Str
  | [] => none
  | (k', v) :: rest => if k = k' then some v else mapLookup k rest

/-- Go map write `data[key] = value`, preserving canonical order. -/
def mapInsert (k v : Str) : Mapping → Mapping
  | [] => [(k, v)]
  | (k', v') :: rest =>
      if k = k' then (k, v) :: rest
      else if strLt k k' then (k, v) :: (k', v') :: rest
      else (k', v') :: mapInsert k v rest

/-- Go map removal `delete(data, key)`. -/
def mapErase (k : Str) : Mapping → Mapping
  | [] => []
  | (k', v') :: rest => if k = k' then rest else (k', v') :: mapErase k rest

/-- A value of `Mapping` that really is a Go map: canonically sorted
keys (hence no duplicates) and genuine bytes throughout. -/
def WFMapping (m : Mapping) : Prop :=
  m.Pairwise ltKey ∧ ∀ kv ∈ m, (∀ c ∈ kv.1, c < 256) ∧ ∀ c ∈ kv.2, c < 256

/-! ### ASCII byte-string literals appearing in the Go source -/

/-- Bytes of the Go literal "set". -/
def setLit : Str := [115, 101, 116]

/-- Bytes of the Go literal "delete". -/
def deleteLit : Str := [100, 101, 108, 101, 116, 101]

/-- Bytes of the Go literal "key" (the constant the Delete path embeds
in its Command, fsm source part_002 line 57). -/
def keyLit : Str := [107, 101, 121]

/-- Bytes of the struct field name "Action". -/
def actionField : Str := [65, 99, 116, 105, 111, 110]

/-- Bytes of the struct field name "Key". -/
def keyField : Str := [75, 101, 121]

/-- Bytes of the struct field name "Value". -/
def valueField : Str := [86, 97, 108, 117, 101]

/-- Bytes of the struct field name "ID". -/
def idField : Str := [73, 68]

/-- Bytes of the struct field name "Address". -/
def addressField : Str := [65, 100, 100, 114, 101, 115, 115]

/-- Bytes of the JSON key "status". -/
def statusLit : Str := [115, 116, 97, 116, 117, 115]

/-- Bytes of the JSON value "success". -/
def successLit : Str := [115, 117, 99, 99, 101, 115, 115]

namespace store

/-- The replicated instruction, Go `store.Command` (source part_002):
Action, Key, Value string fields. -/
structure Command where
  Action : Str
  Key : Str
  Value : Str
deriving DecidableEq

/-- `store.encode` (fsm.go): base64-encode every key and value
independently, then JSON-marshal the resulting string map. -/
def encode (data : Mapping) : Option Bytes :=
  jsonMarshalMap (data.map (fun kv => (b64encode kv.1, b64encode kv.2)))

/-- The entry loop of `store.decode`: base64-decode every key and value,
failing if any entry is malformed. -/
def decodeEntries : List (Str × Str) → Option (List (Str × Str))
  | [] => some []
  | (k, v) :: rest =>
      match b64decode k, b64decode v with
      | some dk, some dv =>
          match decodeEntries rest with
          | some drest => some ((dk, dv) :: drest)
          | none => none
      | _, _ => none

/-- `store.decode` (fsm.go): JSON-unmarshal into a string map, then
base64-decode every key and value into the returned map. -/
def decode (data : Bytes) : Option Mapping :=
  match jsonUnmarshalMap data with
  | none => none
  | some jsonData =>
      match decodeEntries jsonData with
      | none => none
      | some entries =>
          some (entries.foldl (fun m kv => mapInsert kv.1 kv.2 m) [])

/-- `json.Marshal` of a `Command` value: the three string fields in
declaration order. -/
def commandMarshal (c : Command) : Option Bytes :=
  jsonMarshalMap [(actionField, c.Action), (keyField, c.Key),
                  (valueField, c.Value)]

/-- Last value bound to a field name in a parsed object (Go object
decoding lets a later duplicate win); the zero string when absent. -/
def fieldOf (name : Str) (es : List (Str × Str)) : Str :=
  match es.reverse.find? (fun kv => decide (kv.1 = name)) with
  | some kv => kv.2
  | none => []

/-- `json.Unmarshal` of a committed log payload into a `Command`. -/
def commandUnmarshal (b : Bytes) : Option Command :=
  match jsonUnmarshalMap b with
  | none => none
  | some es =>
      some { Action := fieldOf actionField es, Key := fieldOf keyField es,
             Value := fieldOf valueField es }

/-- `fsm.localSet`: load the mapping, insert or overwrite the key, save.
The returned option is the Go error value (none is nil). -/
def fsm.localSet (key value : Str) (m : Mapping) : Option String × Mapping :=
  (none, mapInsert key value m)

/-- `fsm.localGet`: load the mapping and read `data[key]`, the zero
string when the key is absent. -/
def fsm.localGet (key : Str) (m : Mapping) : Option String × Str :=
  (none, (mapLookup key m).getD [])

/-- `fsm.localDelete`: load the mapping, remove the key, save. -/
def fsm.localDelete (key : Str) (m : Mapping) : Option String × Mapping :=
  (none, mapErase key m)

/-- The action dispatch of `fsm.Apply` after unmarshaling: the switch on
`cmd.Action`; unknown actions are logged and leave the map unchanged. -/
def fsm.applyCommand (cmd : Command) (m : Mapping) : Option String × Mapping :=
  if cmd.Action = setLit then fsm.localSet cmd.Key cmd.Value m
  else if cmd.Action = deleteLit then fsm.localDelete cmd.Key m
  else (none, m)

/-- `fsm.Apply` (fsm.go lines 27-47): unmarshal the committed log
payload; on failure log and return nil with no state change, otherwise
dispatch on the action.  First component is the value returned to the
raft module, second the durable map afterwards. -/
def fsm.Apply (data : Bytes) (m : Mapping) : Option String × Mapping :=
  match commandUnmarshal data with
  | none => (none, m)
  | some cmd => fsm.applyCommand cmd m

/-- `fsm.Apply` folded over a whole committed log suffix. -/
def fsm.applyAll (cmds : List Command) (m : Mapping) : Mapping :=
  cmds.foldl (fun m c => (fsm.applyCommand c m).2) m

/-- `fsm.Snapshot` (fsm.go lines 49-63): load the mapping and encode it
as the snapshot blob. -/
def fsm.Snapshot (m : Mapping) : Option Bytes :=
  encode m

/-- `fsm.Restore` (fsm.go lines 65-78): decode the stream; on failure
return the error with the map untouched, otherwise save the decoded
mapping over the whole previous state. -/
def fsm.Restore (b : Bytes) (m : Mapping) : Option String × Mapping :=
  match decode b with
  | none => (some "restore: decode failed", m)
  | some data => (none, data)

/-- The raft role of the local node (hashicorp raft RaftState). -/
inductive RaftState where
  | Follower
  | Candidate
  | Leader
  | Shutdown
deriving DecidableEq

/-- The Set Command the coordinator builds (part_002 line 43): the
action literal with the caller key and value. -/
def Config.setCommand (key value : Str) : Command :=
  { Action := setLit, Key := key, Value := value }

/-- The Delete Command the coordinator builds (part_002 line 57).  The
source writes the literal string "key" in the Key field, not the key
argument. -/
def Config.deleteCommand (key : Str) : Command :=
  { Action := deleteLit, Key := keyLit, Value := [] }

/-- `Config.Set` (part_002 lines 38-50): reject when not leader,
otherwise marshal the Set Command, submit it to the raft log and (once
committed) have the fsm apply it.  Components: the call result, the
payloads submitted to the consensus log, the durable map afterwards. -/
def Config.Set (st : RaftState) (key value : Str) (m : Mapping) :
    Except String Unit × List Bytes × Mapping :=
  if st ≠ RaftState.Leader then (Except.error "not leader", [], m)
  else
    match commandMarshal (Config.setCommand key value) with
    | none => (Except.error "marshaling command", [], m)
    | some b => (Except.ok Unit.unit, [b], (fsm.Apply b m).2)

/-- `Config.Delete` (part_002 lines 52-64): same shape as `Config.Set`
but submitting the Delete Command. -/
def Config.Delete (st : RaftState) (key : Str) (m : Mapping) :
    Except String Unit × List Bytes × Mapping :=
  if st ≠ RaftState.Leader then (Except.error "not leader", [], m)
  else
    match commandMarshal (Config.deleteCommand key) with
    | none => (Except.error "marshalling command", [], m)
    | some b => (Except.ok Unit.unit, [b], (fsm.Apply b m).2)

/-- `Config.Get` (part_002): a plain local read through the fsm. -/
def Config.Get (key : Str) (m : Mapping) : Option String × Str :=
  fsm.localGet key m

/-- A raft membership entry, Go `raft.Server` restricted to the fields
the join handler uses. -/
structure RaftServer where
  ID : Str
  Address : Str
deriving DecidableEq

/-- `json.Unmarshal` of a join request body into a membership entry. -/
def serverUnmarshal (b : Bytes) : Option RaftServer :=
  match jsonUnmarshalMap b with
  | none => none
  | some es => some { ID := fieldOf idField es, Address := fieldOf addressField es }

/-- The success body the join handler writes, the JSON object mapping
"status" to "success". -/
def successBody : Bytes := 123 :: (printEntry (statusLit, successLit) ++ [125])

/-- An error body (the handler serializes the JSON error message; its
exact contents are immaterial to the claims). -/
def errorBody : Bytes := []

/-- `Config.AddHandler` (part_002 lines 70-95): parse the body into a
membership entry; on failure answer 500 with an error body; otherwise
call AddVoter, discard its result, and answer 200 with the success
body.  `addVoter` stands for the consensus-module operation; the handler
ignores the future it returns, so it is called and dropped. -/
def Config.AddHandler (body : Bytes)
    (addVoter : RaftServer → Except String Unit) : Nat × Bytes :=
  match serverUnmarshal body with
  | none => (500, errorBody)
  | some s =>
      let _ := addVoter s
      (200, successBody)

end store

namespace server

/-- `encode` in package main (server.go lines 221-230), duplicated
verbatim from the store package. -/
def encode (data : Mapping) : Option Bytes :=
  jsonMarshalMap (data.map (fun kv => (b64encode kv.1, b64encode kv.2)))

/-- The entry loop of the package-main `decode`, duplicated verbatim. -/
def decodeEntries : List (Str × Str) → Option (List (Str × Str))
  | [] => some []
  | (k, v) :: rest =>
      match b64decode k, b64decode v with
      | some dk, some dv =>
          match decodeEntries rest with
          | some drest => some ((dk, dv) :: drest)
          | none => none
      | _, _ => none

/-- `decode` in package main (server.go lines 232-255), duplicated
verbatim from the store package. -/
def decode (data : Bytes) : Option Mapping :=
  match jsonUnmarshalMap data with
  | none => none
  | some jsonData =>
      match decodeEntries jsonData with
      | none => none
      | some entries =>
          some (entries.foldl (fun m kv => mapInsert kv.1 kv.2 m) [])

end server

/-! ### Lemmas: canonical JSON round trip -/

theorem plainChar_facts {c : Nat} (h : plainChar c = true) : c ≠ 34 ∧ c ≠ 92 := by
  simp only [plainChar, Bool.and_eq_true, decide_eq_true_eq, bne_iff_ne, ne_eq] at h
  exact ⟨h.1.1.1.1.2, h.1.1.1.2⟩

theorem takeStr_print : ∀ (k t : Str), plainStr k = true →
    takeStr (k ++ 34 :: t) = some (k, t)
  | [], t => fun _ => by simp [takeStr]
  | c :: k, t => fun h => by
      have h' : plainChar c = true ∧ plainStr k = true := by
        simpa [plainStr] using h
      have hc := plainChar_facts h'.1
      simp [takeStr, hc.1, hc.2, takeStr_print k t h'.2]

theorem printEntries_length_ge (kv : Str × Str) (rest : List (Str × Str)) :
    5 ≤ (printEntries (kv :: rest)).length := by
  cases rest with
  | nil => simp [printEntries, printEntry, printStr]; omega
  | cons y ys => simp [printEntries, printEntry, printStr]; omega

theorem parseEntriesF_print :
    ∀ (l : List (Str × Str)) (fuel : Nat), l ≠ [] →
      (∀ kv ∈ l, plainStr kv.1 = true ∧ plainStr kv.2 = true) →
      (printEntries l).length + 1 ≤ fuel →
      parseEntriesF fuel (printEntries l ++ [125]) = some (l, [])
  | [], _, hne, _, _ => absurd rfl hne
  | (k, v) :: rest, fuel, _, hpl, hfuel => by
      have hk : plainStr k = true := (hpl (k, v) (by simp)).1
      have hv : plainStr v = true := (hpl (k, v) (by simp)).2
      obtain ⟨f, rfl⟩ : ∃ f, fuel = f + 1 := by
        cases fuel with
        | zero => omega
        | succ f => exact ⟨f, rfl⟩
      cases rest with
      | nil =>
          have e1 : printEntries [(k, v)] ++ [125]
              = 34 :: (k ++ 34 :: (58 :: 34 :: (v ++ 34 :: [125]))) := by
            simp [printEntries, printEntry, printStr]
          rw [e1]
          simp only [parseEntriesF, if_pos rfl, takeStr_print k _ hk]
          simp [takeStr_print v _ hv]
      | cons y ys =>
          have e1 : printEntries ((k, v) :: y :: ys) ++ [125]
              = 34 :: (k ++ 34 :: (58 :: 34 :: (v ++ 34 ::
                  (44 :: (printEntries (y :: ys) ++ [125]))))) := by
            simp [printEntries, printEntry, printStr]
          rw [e1]
          simp only [parseEntriesF, if_pos rfl, takeStr_print k _ hk]
          simp only [takeStr_print v _ hv]
          have hfits : (printEntries (y :: ys)).length + 1 ≤ f := by
            have h5 := printEntries_length_ge (k, v) (y :: ys)
            have : printEntries ((k, v) :: y :: ys)
                = printEntry (k, v) ++ 44 :: printEntries (y :: ys) := rfl
            rw [this] at hfuel
            simp only [List.length_append, List.length_cons, printEntry,
                       printStr] at hfuel
            omega
          rw [parseEntriesF_print (y :: ys) f (by simp)
                (fun kv hkv => hpl kv (by simp [hkv])) hfits]
          simp

theorem jsonUnmarshalMap_print (l : List (Str × Str))
    (h : ∀ kv ∈ l, plainStr kv.1 = true ∧ plainStr kv.2 = true) :
    jsonUnmarshalMap (123 :: (printEntries l ++ [125])) = some l := by
  cases l with
  | nil => rfl
  | cons kv rest =>
      have hge := printEntries_length_ge kv rest
      have hne : printEntries (kv :: rest) ++ [125] ≠ [125] := by
        intro he
        have := congrArg List.length he
        simp only [List.length_append, List.length_cons, List.length_nil] at this
        omega
      simp only [jsonUnmarshalMap, if_neg hne]
      rw [parseEntriesF_print (kv :: rest) _ (by simp) h
            (by simp [List.length_append])]

/-! ### Lemmas: base64 outputs need no escaping -/

theorem b64chr_plain : ∀ n < 64, plainChar (b64chr n) = true := by decide

theorem plainChar_61 : plainChar 61 = true := by decide

theorem b64encode_plain :
    ∀ s : List Nat, (∀ c ∈ s, c < 256) → plainStr (b64encode s) = true
  | [] => fun _ => rfl
  | [b0] => by
      intro h
      have hb0 : b0 < 256 := h b0 (by simp)
      simp [b64encode, plainStr, b64chr_plain _ (show b0 / 4 < 64 by omega),
            b64chr_plain _ (show b0 % 4 * 16 < 64 by omega), plainChar_61]
  | [b0, b1] => by
      intro h
      have hb0 : b0 < 256 := h b0 (by simp)
      have hb1 : b1 < 256 := h b1 (by simp)
      simp [b64encode, plainStr, b64chr_plain _ (show b0 / 4 < 64 by omega),
            b64chr_plain _ (show b0 % 4 * 16 + b1 / 16 < 64 by omega),
            b64chr_plain _ (show b1 % 16 * 4 < 64 by omega), plainChar_61]
  | b0 :: b1 :: b2 :: rest => by
      intro h
      have hb0 : b0 < 256 := h b0 (by simp)
      have hb1 : b1 < 256 := h b1 (by simp)
      have hb2 : b2 < 256 := h b2 (by simp)
      have ih : plainStr (b64encode rest) = true :=
        b64encode_plain rest (fun c hc => h c (by simp [hc]))
      simp only [plainStr] at ih
      simp [b64encode, plainStr, b64chr_plain _ (show b0 / 4 < 64 by omega),
            b64chr_plain _ (show b0 % 4 * 16 + b1 / 16 < 64 by omega),
            b64chr_plain _ (show b1 % 16 * 4 + b2 / 64 < 64 by omega),
            b64chr_plain _ (show b2 % 64 < 64 by omega), ih]

/-! ### Lemmas: the canonical map -/

theorem strLt_irrefl : ∀ s : Str, strLt s s = false
  | [] => rfl
  | a :: s => by simp [strLt, strLt_irrefl s]

theorem strLt_asymm : ∀ s t : Str, strLt s t = true → strLt t s = false
  | [], [] => by simp [strLt]
  | [], _ :: _ => fun _ => rfl
  | _ :: _, [] => by simp [strLt]
  | a :: s, b :: t => fun h => by
      by_cases hab : a < b
      · have hba : ¬ b < a := by omega
        simp [strLt, hab, hba]
      · by_cases hba : b < a
        · simp [strLt, hab, hba] at h
        · simp only [strLt, if_neg hab, if_neg hba] at h
          simp [strLt, hab, hba, strLt_asymm s t h]

theorem mapInsert_append : ∀ (l : Mapping) (k v : Str),
    (∀ e ∈ l, strLt e.1 k = true) → mapInsert k v l = l ++ [(k, v)]
  | [], _, _ => fun _ => rfl
  | (k', v') :: rest, k, v => fun h => by
      have hk' : strLt k' k = true := h (k', v') (by simp)
      have hne : k ≠ k' := by
        intro he
        rw [he, strLt_irrefl] at hk'
        exact Bool.false_ne_true hk'
      have hlt : strLt k k' = false := strLt_asymm _ _ hk'
      simp [mapInsert, hne, hlt,
            mapInsert_append rest k v (fun e he => h e (by simp [he]))]

theorem foldl_mapInsert_sorted :
    ∀ (l acc : Mapping), (acc ++ l).Pairwise ltKey →
      l.foldl (fun m e => mapInsert e.1 e.2 m) acc = acc ++ l
  | [], acc => fun _ => by simp
  | kv :: rest, acc => fun h => by
      have hsplit := List.pairwise_append.1 h
      have h1 : ∀ e ∈ acc, strLt e.1 kv.1 = true := by
        intro e he
        exact hsplit.2.2 e he kv (by simp)
      rw [List.foldl_cons, mapInsert_append acc kv.1 kv.2 h1]
      have h2 : ((acc ++ [kv]) ++ rest).Pairwise ltKey := by
        simpa [List.append_assoc] using h
      rw [foldl_mapInsert_sorted rest (acc ++ [kv]) h2]
      simp

theorem mapErase_absent : ∀ (k : Str) (m : Mapping),
    mapLookup k m = none → mapErase k m = m
  | _, [] => fun _ => rfl
  | k, (k', v') :: rest => fun h => by
      by_cases he : k = k'
      · simp [mapLookup, he] at h
      · simp only [mapLookup, if_neg he] at h
        simp [mapErase, he, mapErase_absent k rest h]

/-! ### Lemmas: the composed store codec round trip -/

theorem store_decodeEntries_map :
    ∀ M : Mapping,
      (∀ kv ∈ M, (∀ c ∈ kv.1, c < 256) ∧ ∀ c ∈ kv.2, c < 256) →
      store.decodeEntries (M.map (fun kv => (b64encode kv.1, b64encode kv.2)))
        = some M
  | [] => fun _ => rfl
  | (k, v) :: rest => fun h => by
      have hk := (h (k, v) (by simp)).1
      have hv := (h (k, v) (by simp)).2
      simp only [List.map_cons, store.decodeEntries,
                 b64decode_b64encode k hk, b64decode_b64encode v hv,
                 store_decodeEntries_map rest (fun kv hkv => h kv (by simp [hkv]))]

theorem store_encode_eq (M : Mapping)
    (hbytes : ∀ kv ∈ M, (∀ c ∈ kv.1, c < 256) ∧ ∀ c ∈ kv.2, c < 256) :
    store.encode M = some (123 :: (printEntries
      (M.map (fun kv => (b64encode kv.1, b64encode kv.2))) ++ [125])) := by
  have hplain : (M.map (fun kv => (b64encode kv.1, b64encode kv.2))).all
      (fun kv => plainStr kv.1 && plainStr kv.2) = true := by
    rw [List.all_eq_true]
    intro kv hkv
    rw [List.mem_map] at hkv
    obtain ⟨e, he, rfl⟩ := hkv
    simp [b64encode_plain e.1 (hbytes e he).1, b64encode_plain e.2 (hbytes e he).2]
  rw [store.encode, jsonMarshalMap, if_pos hplain]

/-- The heart of the round-trip claims: on any genuine Go map, decoding
the encoding returns exactly the same map. -/
theorem store_encode_decode (M : Mapping) (h : WFMapping M) :
    (store.encode M).bind store.decode = some M := by
  obtain ⟨hsort, hbytes⟩ := h
  rw [store_encode_eq M hbytes, Option.some_bind, store.decode]
  have hplain : ∀ kv ∈ M.map (fun kv => (b64encode kv.1, b64encode kv.2)),
      plainStr kv.1 = true ∧ plainStr kv.2 = true := by
    intro kv hkv
    rw [List.mem_map] at hkv
    obtain ⟨e, he, rfl⟩ := hkv
    exact ⟨b64encode_plain e.1 (hbytes e he).1, b64encode_plain e.2 (hbytes e he).2⟩
  simp only [jsonUnmarshalMap_print _ hplain, store_decodeEntries_map M hbytes]
  rw [show M.foldl (fun m kv => mapInsert kv.1 kv.2 m) [] = [] ++ M from
        foldl_mapInsert_sorted M [] (by simpa using hsort)]
  simp

theorem server_decodeEntries_eq :
    ∀ l : List (Str × Str), server.decodeEntries l = store.decodeEntries l
  | [] => rfl
  | (k, v) :: rest => by
      simp only [server.decodeEntries, store.decodeEntries,
                 server_decodeEntries_eq rest]

/-! ### Claim theorems -/

/-- C1: the claim states that for every caller key k the Delete path of
the Cluster Coordinator builds a Delete Command whose key field equals
k.  Evaluating the code at the caller key "foo" (bytes 102 111 111)
shows the constructed Command instead carries the fixed literal "key"
(bytes 107 101 121), which differs from the caller key, so the code
contradicts the claim and the spec, which names this exact defect.  The
claim describes the intended behaviour; the code is the slip. -/
theorem delete_uses_literal_key :
    (store.Config.deleteCommand [102, 111, 111]).Key = keyLit ∧
    keyLit ≠ [102, 111, 111] :=
  ⟨rfl, by decide⟩

/-- C2: applying the same finite command sequence through the fsm
dispatch to two stores both initialized to the empty mapping yields
mappings that are byte-identical after encoding: the fsm transition is a
pure function of the state and the command sequence. -/
theorem fsm_apply_convergence (cmds : List store.Command) (s1 s2 : Mapping)
    (h1 : s1 = []) (h2 : s2 = []) :
    store.encode (store.fsm.applyAll cmds s1)
      = store.encode (store.fsm.applyAll cmds s2) := by
  rw [h1, h2]

theorem fsm_apply_convergence_w :
    store.encode (store.fsm.applyAll [store.Config.setCommand [97] [98]] [])
      = store.encode (store.fsm.applyAll [store.Config.setCommand [97] [98]] []) :=
  fsm_apply_convergence [store.Config.setCommand [97] [98]] [] [] rfl rfl

/-- C3: for every mapping M that is a genuine Go map (distinct keys in
canonical order, arbitrary binary bytes in keys and values), decoding
the encoding of M returns exactly M. -/
theorem decode_encode_roundtrip (M : Mapping) (h : WFMapping M) :
    (store.encode M).bind store.decode = some M :=
  store_encode_decode M h

theorem decode_encode_roundtrip_w :
    (store.encode [([0, 255], [10])]).bind store.decode
      = some [([0, 255], [10])] :=
  decode_encode_roundtrip [([0, 255], [10])] (by constructor <;> decide)

/-- C4: restoring the blob produced by a snapshot taken at state S
leaves the mapping equal to S, on any node whatever its previous state;
and restoring any blob that decodes replaces the whole state with the
decoded contents of the blob. -/
theorem snapshot_restore_fidelity :
    (∀ (S : Mapping) (b : Bytes) (T : Mapping), WFMapping S →
        store.fsm.Snapshot S = some b →
        store.fsm.Restore b T = (none, S)) ∧
    (∀ (b : Bytes) (T M : Mapping), store.decode b = some M →
        store.fsm.Restore b T = (none, M)) := by
  constructor
  · intro S b T hwf hsnap
    have h := store_encode_decode S hwf
    rw [store.fsm.Snapshot] at hsnap
    rw [hsnap, Option.some_bind] at h
    simp [store.fsm.Restore, h]
  · intro b T M h
    simp [store.fsm.Restore, h]

theorem snapshot_restore_fidelity_w :
    store.fsm.Restore
        [123, 34, 89, 81, 61, 61, 34, 58, 34, 89, 103, 61, 61, 34, 125]
        [([99], [100])] = (none, [([97], [98])]) ∧
    store.fsm.Restore
        [123, 34, 89, 81, 61, 61, 34, 58, 34, 89, 103, 61, 61, 34, 125]
        [] = (none, [([97], [98])]) :=
  ⟨snapshot_restore_fidelity.1 [([97], [98])]
      [123, 34, 89, 81, 61, 61, 34, 58, 34, 89, 103, 61, 61, 34, 125]
      [([99], [100])] (by constructor <;> decide) rfl,
   snapshot_restore_fidelity.2
      [123, 34, 89, 81, 61, 61, 34, 58, 34, 89, 103, 61, 61, 34, 125]
      [] [([97], [98])] rfl⟩

/-- C5: a committed log entry whose payload does not deserialize into a
Command, or deserializes into one whose action is neither set nor
delete, leaves the durable map unchanged and returns nil to the
consensus module, exactly as a committed no-op would. -/
theorem apply_malformed_committed_noop (data : Bytes) (m : Mapping)
    (h : store.commandUnmarshal data = none ∨
         ∃ c, store.commandUnmarshal data = some c ∧
              c.Action ≠ setLit ∧ c.Action ≠ deleteLit) :
    store.fsm.Apply data m = (none, m) := by
  rcases h with h | ⟨c, hc, hs, hd⟩
  · simp [store.fsm.Apply, h]
  · simp [store.fsm.Apply, hc, store.fsm.applyCommand, hs, hd]

theorem apply_malformed_committed_noop_w :
    store.fsm.Apply [110, 111] [([97], [98])] = (none, [([97], [98])]) :=
  apply_malformed_committed_noop [110, 111] [([97], [98])] (Or.inl rfl)

/-- C6: on a node whose raft role is not leader, both Set and Delete
fail with the not-leader error, submit nothing to the consensus log, and
leave the durable map untouched. -/
theorem nonleader_set_delete_rejected (st : store.RaftState) (k v : Str)
    (m : Mapping) (h : st ≠ store.RaftState.Leader) :
    store.Config.Set st k v m = (Except.error "not leader", [], m) ∧
    store.Config.Delete st k m = (Except.error "not leader", [], m) := by
  constructor
  · simp [store.Config.Set, h]
  · simp [store.Config.Delete, h]

theorem nonleader_set_delete_rejected_w :
    store.Config.Set store.RaftState.Follower [97] [98] [([99], [100])]
      = (Except.error "not leader", [], [([99], [100])]) ∧
    store.Config.Delete store.RaftState.Follower [97] [([99], [100])]
      = (Except.error "not leader", [], [([99], [100])]) :=
  nonleader_set_delete_rejected store.RaftState.Follower [97] [98]
    [([99], [100])] (by decide)

/-- C7: on any byte stream that fails to decode, Restore reports an
error and leaves the durable map exactly as it was, never partially
applied. -/
theorem restore_decode_failure_unchanged (b : Bytes) (m : Mapping)
    (h : store.decode b = none) :
    (store.fsm.Restore b m).1.isSome = true ∧
    (store.fsm.Restore b m).2 = m := by
  simp [store.fsm.Restore, h]

theorem restore_decode_failure_unchanged_w :
    (store.fsm.Restore [91] [([97], [98])]).1.isSome = true ∧
    (store.fsm.Restore [91] [([97], [98])]).2 = [([97], [98])] :=
  restore_decode_failure_unchanged [91] [([97], [98])] rfl

/-- C8: deleting a key absent from the mapping succeeds (the returned Go
error is nil) and leaves the mapping equal to what it was. -/
theorem delete_absent_key_noop (k : Str) (M : Mapping)
    (h : mapLookup k M = none) :
    store.fsm.localDelete k M = (none, M) := by
  simp [store.fsm.localDelete, mapErase_absent k M h]

theorem delete_absent_key_noop_w :
    store.fsm.localDelete [97] [([98], [99])] = (none, [([98], [99])]) :=
  delete_absent_key_noop [97] [([98], [99])] rfl

/-- C9: whenever the join request body parses as a membership entry, the
join handler answers 200 with the success body, and the answer is the
same whatever the AddVoter operation would return: its result is
discarded and never surfaced. -/
theorem add_handler_ignores_addvoter (body : Bytes) (s : store.RaftServer)
    (f g : store.RaftServer → Except String Unit)
    (h : store.serverUnmarshal body = some s) :
    store.Config.AddHandler body f = (200, store.successBody) ∧
    store.Config.AddHandler body f = store.Config.AddHandler body g := by
  constructor
  · simp [store.Config.AddHandler, h]
  · simp [store.Config.AddHandler, h]

theorem add_handler_ignores_addvoter_w :
    store.Config.AddHandler
        [123, 34, 73, 68, 34, 58, 34, 97, 34, 44,
         34, 65, 100, 100, 114, 101, 115, 115, 34, 58, 34, 98, 34, 125]
        (fun _ => Except.ok Unit.unit) = (200, store.successBody) ∧
    store.Config.AddHandler
        [123, 34, 73, 68, 34, 58, 34, 97, 34, 44,
         34, 65, 100, 100, 114, 101, 115, 115, 34, 58, 34, 98, 34, 125]
        (fun _ => Except.ok Unit.unit)
      = store.Config.AddHandler
        [123, 34, 73, 68, 34, 58, 34, 97, 34, 44,
         34, 65, 100, 100, 114, 101, 115, 115, 34, 58, 34, 98, 34, 125]
        (fun _ => Except.error "boom") :=
  add_handler_ignores_addvoter
    [123, 34, 73, 68, 34, 58, 34, 97, 34, 44,
     34, 65, 100, 100, 114, 101, 115, 115, 34, 58, 34, 98, 34, 125]
    (store.RaftServer.mk [97] [98])
    (fun _ => Except.ok Unit.unit) (fun _ => Except.error "boom") rfl

/-- C10: the encode and decode functions duplicated in package main are
extensionally equal to those of the store package: they agree on every
mapping and on every byte string (same result, including failure). -/
theorem server_store_codec_equal :
    (∀ M : Mapping, server.encode M = store.encode M) ∧
    (∀ b : Bytes, server.decode b = store.decode b) := by
  constructor
  · intro M
    rfl
  · intro b
    simp only [server.decode, store.decode, server_decodeEntries_eq]

end KVStore
